import Mathlib

/-!  Verification of the LinuxWhisper capture/intent/routing pipeline.

Shallow embedding of the Python sources under `src/linuxwhisper/` (plus the
monolithic revision `linuxwhisper.py`, which holds the `safe_execute`-wrapped
`AIService.chat` / `AIService.vision` that `handlers/mode.py` invokes):
pure functions become Lean functions, the mutable `STATE` fields touched by
each handler become explicit state records, and every external call
(network, clipboard, subprocess) is an oracle argument plus an event in an
emitted trace.  -/

namespace LinuxWhisper

/-- Python `str.strip()`: drop whitespace from both ends of the string. -/
def py_strip (s : String) : String :=
  String.mk (((s.data.dropWhile Char.isWhitespace).reverse.dropWhile Char.isWhitespace).reverse)

/-- Python `str.lower()` (ASCII range, enough for the strings appearing here). -/
def py_lower (s : String) : String := String.mk (s.data.map Char.toLower)

/-- Python `str.upper()` (ASCII range). -/
def py_upper (s : String) : String := String.mk (s.data.map Char.toUpper)

/-- `config.py`: `CFG.MAX_TOKENS`. -/
abbrev CFG_MAX_TOKENS : Nat := 32000

/-- `config.py`: `CFG.ANSWER_HISTORY_LIMIT`. -/
abbrev CFG_ANSWER_HISTORY_LIMIT : Nat := 15

/-- `config.py`: `CFG.CHAT_MESSAGE_LIMIT`. -/
abbrev CFG_CHAT_MESSAGE_LIMIT : Nat := 20

/-- One entry of `STATE.conversation_history`: `{"role": ..., "content": ...}`. -/
structure Msg where
  role : String
  content : String
deriving DecidableEq, Repr

/-- `HistoryManager.estimate_tokens`: `len(text) // 4`. -/
def estimate_tokens (text : String) : Nat := text.data.length / 4

/-- `HistoryManager.get_history_tokens`: sum of estimates over the history. -/
def get_history_tokens (h : List Msg) : Nat :=
  (h.map (fun m => estimate_tokens m.content)).sum

/-- `HistoryManager.trim_history`: pop the oldest message while the total
estimate exceeds `CFG.MAX_TOKENS` and the list is non-empty. -/
def trim_history : List Msg → List Msg
  | [] => []
  | m :: rest =>
    if get_history_tokens (m :: rest) > CFG_MAX_TOKENS then trim_history rest
    else m :: rest

/-- `HistoryManager.add_message`: append `{"role": role, "content": content}`
then trim. -/
def add_message (h : List Msg) (role content : String) : List Msg :=
  trim_history (h ++ [⟨role, content⟩])

/-- A whole sequence of `add_message` calls starting from the empty history. -/
def run_adds (calls : List (String × String)) : List Msg :=
  calls.foldl (fun h c => add_message h c.1 c.2) []

/-- One entry of `STATE.answer_history`: `{"text": ..., "timestamp": ...}`.
`timestamp` is the externally supplied `time.strftime("%H:%M")` value. -/
structure AnswerEntry where
  text : String
  timestamp : String
deriving DecidableEq, Repr

/-- `HistoryManager.add_answer`: insert at index 0, then truncate to
`CFG.ANSWER_HISTORY_LIMIT` entries when the limit is exceeded. -/
def add_answer (h : List AnswerEntry) (text stamp : String) : List AnswerEntry :=
  let h' : List AnswerEntry := ⟨text, stamp⟩ :: h
  if h'.length > CFG_ANSWER_HISTORY_LIMIT then h'.take CFG_ANSWER_HISTORY_LIMIT
  else h'

/-- A whole sequence of `add_answer` calls (fixed timestamp oracle) starting
from the empty log. -/
def run_answers (stamp : String) (ts : List String) : List AnswerEntry :=
  ts.foldl (fun h t => add_answer h t stamp) []

/-- One entry of `STATE.chat_messages`: `{"role": ..., "text": ...}`. -/
structure ChatMsg where
  role : String
  text : String
deriving DecidableEq, Repr

/-- `ChatManager.add_message`: append, then keep only the last
`CFG.CHAT_MESSAGE_LIMIT` entries when the limit is exceeded. -/
def chat_add_message (l : List ChatMsg) (role text : String) : List ChatMsg :=
  let l' : List ChatMsg := l ++ [⟨role, text⟩]
  if l'.length > CFG_CHAT_MESSAGE_LIMIT then l'.drop (l'.length - CFG_CHAT_MESSAGE_LIMIT)
  else l'

/-- A content string of 128004 characters, whose token estimate 32001 exceeds
`CFG.MAX_TOKENS = 32000`. -/
def oversized_content : String := String.mk (List.replicate 128004 (Char.ofNat 97))

/-- A JSON value, as `json.loads` can return it: string, number, boolean,
null, array, or object (an association list with unique keys; the integer
`num` stands in for every JSON number — all non-string values behave alike
here, since only `.upper()` on a string succeeds). -/
inductive Json
  | str (s : String)
  | num (n : Int)
  | bool (b : Bool)
  | null
  | arr (elems : List Json)
  | obj (fields : List (String × Json))

/-- Outcome of the router model call and JSON parse in `AIService.smart_route`:
either some exception was raised inside the `try` block (network failure,
timeout, or `json.loads` error), or `json.loads` succeeded with an arbitrary
JSON value — not necessarily an object, and with fields of any type. -/
inductive RouterReply
  | failure
  | parsed (v : Json)

/-- The spec's RouterDecision: `{action, text}`. The text is whatever JSON
value `route.get("text", user_text)` produced. -/
structure RouterDecision where
  action : String
  text : Json

/-- `AIService.smart_route`: returns the parsed JSON value, or the fixed
fallback dict `{"action": "AGENT", "text": user_input}` when anything in the
`try` block raised. -/
def smart_route (user_input : String) : RouterReply → Json
  | .failure => Json.obj [("action", Json.str "AGENT"), ("text", Json.str user_input)]
  | .parsed v => v

/-- Python `route.get(key, default)` on a parsed JSON object's field list. -/
def json_dict_get (fields : List (String × Json)) (key : String) (dflt : Json) : Json :=
  (fields.lookup key).getD dflt

/-- The routing prefix of `AIService.route_and_process` (its lines 86–96):
`action = route.get("action", "AGENT").upper()`,
`processed_text = route.get("text", user_text)`, then the three-way branch.
The produced pair is the spec's `RouterDecision`: the action label the
function returns, and the text it forwards to that action's path.
`none` models the uncaught `AttributeError` inside `route_and_process` —
`route.get` on a non-dict reply, or `.upper()` on a non-string action value —
which the surrounding `@safe_execute("Aria Router")` catches and logs,
returning `None` to the caller instead of a decision. -/
def classify (user_text : String) (reply : RouterReply) : Option RouterDecision :=
  match smart_route user_text reply with
  | Json.obj fields =>
    match json_dict_get fields "action" (Json.str "AGENT") with
    | Json.str a =>
      let action := py_upper a
      let text := json_dict_get fields "text" (Json.str user_text)
      if action = "DICTATION" then some ⟨"DICTATION", text⟩
      else if action = "VISION" then some ⟨"VISION", text⟩
      else some ⟨"AGENT", text⟩
    | _ => none
  | _ => none

/-- ASCII apostrophe. -/
def apostrophe : String := String.mk [Char.ofNat 39]

/-- `ModeHandler.process`: the fixed set of known silence-artifact phrases. -/
def hallucinations : List String :=
  ["thank you", "you" ++ apostrophe ++ "re welcome", "thanks", "subtitle",
   "untertitel", "you"]

/-- `ModeHandler.process`:
`transcribed_text.strip().lower().replace(".", "").replace("!", "")` —
strip surrounding whitespace, lowercase, remove every '.' and '!'. -/
def clean_transcript (t : String) : String :=
  String.mk ((py_lower (py_strip t)).data.filter (fun c => c != '.' && c != '!'))

/-- The hallucination-guard rejection test of `ModeHandler.process`:
`clean in hallucinations or len(clean) < 2`. -/
def guard_rejects (t : String) : Bool :=
  hallucinations.contains (clean_transcript t) || (clean_transcript t).data.length < 2

/-- Modelled from the spec (claim wording, for comparison only): normalization
said to be "lowercase, with trailing '.' and '!' stripped". -/
def spec_normalize (t : String) : String :=
  String.mk ((py_lower t).data.reverse.dropWhile (fun c => c == '.' || c == '!')).reverse

/-- `decorators.safe_execute`: run the wrapped operation; a raised exception
is caught and logged and `None` is returned instead of propagating. -/
def safe_execute : Except String α → Option α
  | .ok a => some a
  | .error _ => none

/-- The `STATE` fields that `ModeHandler`'s dispatch handlers mutate. -/
structure AppSt where
  conversation_history : List Msg := []
  answer_history : List AnswerEntry := []
  chat_messages : List ChatMsg := []
deriving DecidableEq, Repr

/-- One invocation of an external collaborator, recorded in program order. -/
inductive ExtCall
  | captureScreenshot
  | completeChat (prompt : String)
  | completeVision (prompt : String)
  | typeText (s : String)
  | pasteText (s : String)
  | speak (s : String)
deriving DecidableEq, Repr

/-- Oracle results for the external calls a dispatch may perform:
`chat`/`vision` are the raw outcomes of the network completions (exception or
reply text) before `safe_execute` wraps them, `shot` is
`ImageService.take_screenshot()`, `pastebuf` is `pyperclip.paste()`, and
`stamp` is `time.strftime("%H:%M")`. -/
structure Oracles where
  chat : Except String String := .error "network"
  vision : Except String String := .error "network"
  shot : Option String := none
  pastebuf : String := ""
  stamp : String := "00:00"

/-- `ModeHandler._handle_dictation`: log `"[Dictation] " + text` to the answer
history, add a user turn to the chat overlay, and type the raw text. -/
def handle_dictation (text : String) (o : Oracles) (st : AppSt) :
    AppSt × List ExtCall :=
  let st1 := { st with
    answer_history := add_answer st.answer_history ("[Dictation] " ++ text) o.stamp }
  let st2 := { st1 with
    chat_messages := chat_add_message st1.chat_messages "user" ("🎤 " ++ text) }
  (st2, [ExtCall.typeText text])

/-- `ModeHandler._handle_ai`: call the (`safe_execute`-wrapped)
`AIService.chat`; abort on a falsy response; otherwise update conversation
history, answer log and chat overlay, then type and speak the response. -/
def handle_ai (text : String) (o : Oracles) (st : AppSt) : AppSt × List ExtCall :=
  match safe_execute o.chat with
  | none => (st, [ExtCall.completeChat text])
  | some r =>
    if r = "" then (st, [ExtCall.completeChat text])
    else
      ({ conversation_history :=
           add_message (add_message st.conversation_history "user" text) "assistant" r,
         answer_history := add_answer st.answer_history r o.stamp,
         chat_messages :=
           chat_add_message (chat_add_message st.chat_messages "user" text) "assistant" r },
       [ExtCall.completeChat text, ExtCall.typeText r, ExtCall.speak r])

/-- `ModeHandler._handle_ai_rewrite`: read the clipboard, build the rewrite
prompt, call chat; abort on a falsy response; otherwise update state, paste
(rather than type) and speak. -/
def handle_ai_rewrite (text : String) (o : Oracles) (st : AppSt) :
    AppSt × List ExtCall :=
  let original := py_strip o.pastebuf
  let prompt := "INSTRUCTION:\n" ++ text ++ "\n\nORIGINAL TEXT:\n" ++ original ++
    "\n\nRewrite the original text based on the instruction. " ++
    "Output ONLY the finished text, without introduction or formatting."
  match safe_execute o.chat with
  | none => (st, [ExtCall.completeChat prompt])
  | some r =>
    if r = "" then (st, [ExtCall.completeChat prompt])
    else
      ({ conversation_history :=
           add_message
             (add_message st.conversation_history "user"
               ("[Rewrite] " ++ text ++ "\nOriginal: " ++
                 String.mk (original.data.take 200) ++ "..."))
             "assistant" r,
         answer_history := add_answer st.answer_history r o.stamp,
         chat_messages :=
           chat_add_message (chat_add_message st.chat_messages "user" ("✍️ " ++ text))
             "assistant" r },
       [ExtCall.completeChat prompt, ExtCall.pasteText r, ExtCall.speak r])

/-- `ModeHandler._handle_vision`: take a screenshot first; abort on a falsy
capture; call the (`safe_execute`-wrapped) `AIService.vision`; abort on a
falsy response; otherwise update state with screen-context-tagged turns and
type and speak the response. -/
def handle_vision (text : String) (o : Oracles) (st : AppSt) :
    AppSt × List ExtCall :=
  match o.shot with
  | none => (st, [ExtCall.captureScreenshot])
  | some img =>
    if img = "" then (st, [ExtCall.captureScreenshot])
    else
      match safe_execute o.vision with
      | none => (st, [ExtCall.captureScreenshot, ExtCall.completeVision text])
      | some r =>
        if r = "" then (st, [ExtCall.captureScreenshot, ExtCall.completeVision text])
        else
          ({ conversation_history :=
               add_message
                 (add_message st.conversation_history "user" ("[Screenshot] " ++ text))
                 "assistant" r,
             answer_history := add_answer st.answer_history r o.stamp,
             chat_messages :=
               chat_add_message
                 (chat_add_message st.chat_messages "user" ("📸 " ++ text))
                 "assistant" r },
           [ExtCall.captureScreenshot, ExtCall.completeVision text,
            ExtCall.typeText r, ExtCall.speak r])

/-- `ModeHandler.process`: the pre-dispatch hallucination guard followed by
the mode dispatch table (`handlers.get(mode)` plus the
`if handler and transcribed_text` check). -/
def process (mode : String) (t : String) (o : Oracles) (st : AppSt) :
    AppSt × List ExtCall :=
  if guard_rejects t then (st, [])
  else if t = "" then (st, [])
  else
    match mode with
    | "dictation" => handle_dictation t o st
    | "ai" => handle_ai t o st
    | "ai_rewrite" => handle_ai_rewrite t o st
    | "vision" => handle_vision t o st
    | _ => (st, [])

/-- A raw key event identity as `pynput` delivers it: either a named special
key (`keyboard.Key.f3`, media keys, ...) or a `KeyCode` carrying a virtual
key number. -/
inductive RawKey
  | named (s : String)
  | code (vk : Nat)
deriving DecidableEq, Repr

/-- One entry of a `KEY_MAPPINGS` list in `config.py`'s `HOTKEY_DEFS`: a named
key object or a raw vendor virtual-key number. -/
inductive KeyId
  | nk (s : String)
  | vkNum (v : Nat)
deriving DecidableEq, Repr

/-- `config.py` `CFG.HOTKEY_DEFS`, flattened as `KeyboardHandler.KEY_MAPPINGS`
does: `mode_id -> [primary] + extras`. -/
def KEY_MAPPINGS : List (String × List KeyId) :=
  [("aria", [KeyId.nk "f3", KeyId.vkNum 269025098, KeyId.nk "media_play_pause"]),
   ("pin", [KeyId.nk "f9", KeyId.vkNum 269025047, KeyId.nk "media_next"]),
   ("tts", [KeyId.nk "f10", KeyId.nk "media_volume_mute"])]

/-- `KEY_MAPPINGS.get(mode, [])`. -/
def key_mappings_of (mode : String) : List KeyId :=
  (KEY_MAPPINGS.lookup mode).getD []

/-- `KEY_MAPPINGS.get(STATE.current_mode, [])` where the mode may be `None`. -/
def key_mappings_opt : Option String → List KeyId
  | none => []
  | some m => key_mappings_of m

/-- `config.py` `CFG.HOTKEY_MODIFIERS` (only "aria" is present, with no
required modifiers). -/
def HOTKEY_MODIFIERS : List (String × List RawKey) := [("aria", [])]

/-- `config.py` `CFG.MODES` (its keys, in iteration order). -/
def MODES : List String := ["aria"]

/-- The two membership tests of `KeyboardHandler.check_key` /
`on_release`: `key in valid_keys` matches named-key entries, and the
`hasattr(key, 'vk') and key.vk in valid_keys` fallback matches raw
virtual-key-number entries. -/
def key_match (k : RawKey) (l : List KeyId) : Bool :=
  match k with
  | .named s => l.contains (KeyId.nk s)
  | .code v => l.contains (KeyId.vkNum v)

/-- `KeyboardHandler.check_key`: key-set match plus the any-required-modifier
check against the currently pressed key set. -/
def check_key (currentKeys : List RawKey) (k : RawKey) (mode : String) : Bool :=
  if key_match k (key_mappings_of mode) then
    let mods := (HOTKEY_MODIFIERS.lookup mode).getD []
    mods.isEmpty || mods.any (fun m => currentKeys.contains m)
  else false

/-- `KeyboardHandler.get_mode_for_key`: first mode in `CFG.MODES` whose
binding the key satisfies. -/
def get_mode_for_key (currentKeys : List RawKey) (k : RawKey) : Option String :=
  MODES.find? (fun m => check_key currentKeys k m)

/-- The keyboard handler's state: the tracked pressed-key set,
`STATE.recording`, `STATE.current_mode`, plus counters for the externally
visible side effects (capture starts = `AudioService.start_recording` calls,
finalizations = `AudioService.stop_recording` calls, pin toggles, TTS
toggles). -/
structure KB where
  currentKeys : List RawKey := []
  recording : Bool := false
  currentMode : Option String := none
  starts : Nat := 0
  fins : Nat := 0
  pinToggles : Nat := 0
  ttsToggles : Nat := 0
deriving DecidableEq, Repr

/-- `KeyboardHandler.on_press`: track the key, ignore everything while
recording, fire pin/TTS toggles, else start a capture session for the first
matching mode. -/
def on_press (k : RawKey) (s : KB) : KB :=
  let s := { s with currentKeys := s.currentKeys.insert k }
  if s.recording then s
  else if check_key s.currentKeys k "pin" then { s with pinToggles := s.pinToggles + 1 }
  else if check_key s.currentKeys k "tts" then { s with ttsToggles := s.ttsToggles + 1 }
  else
    match get_mode_for_key s.currentKeys k with
    | some m =>
      { s with currentMode := some m, recording := true, starts := s.starts + 1 }
    | none => s

/-- `KeyboardHandler.on_release`: untrack the key, ignore when not recording,
and finalize the session when the released key belongs to the current mode's
key set. -/
def on_release (k : RawKey) (s : KB) : KB :=
  let s := { s with currentKeys := s.currentKeys.erase k }
  if !s.recording then s
  else if key_match k (key_mappings_opt s.currentMode) then
    { s with recording := false, fins := s.fins + 1 }
  else s

/-- A raw keyboard event. -/
inductive KEvent
  | down (k : RawKey)
  | up (k : RawKey)
deriving DecidableEq, Repr

/-- Dispatch one event to the handler. -/
def kb_step (s : KB) (e : KEvent) : KB :=
  match e with
  | .down k => on_press k s
  | .up k => on_release k s

/-- Run a whole event sequence from the initial handler state. -/
def run_events (evs : List KEvent) : KB := evs.foldl kb_step {}

/-- Event `i` of the sequence, when a key-down, has a matching later key-up. -/
def down_matched (evs : List KEvent) (i : Nat) : Bool :=
  match evs[i]? with
  | some (KEvent.down k) =>
    (List.range evs.length).any
      (fun j => decide (i < j) && decide (evs[j]? = some (KEvent.up k)))
  | _ => true

/-- A well-formed event sequence: every key-down has a matching later key-up. -/
def well_formed (evs : List KEvent) : Prop :=
  ∀ i, i < evs.length → down_matched evs i = true

/-- Start/finalization bookkeeping invariant: starts exceed finalizations by
exactly one while a capture session is active, and are equal otherwise. -/
def starts_inv (s : KB) : Prop := s.starts = s.fins + s.recording.toNat

/-- While recording, some currently pressed key belongs to the current mode's
key set (so releasing it will finalize the session). -/
def rec_inv (s : KB) : Prop :=
  s.recording = true →
    ∃ k, k ∈ s.currentKeys ∧ key_match k (key_mappings_opt s.currentMode) = true

instance (evs : List KEvent) : Decidable (well_formed evs) :=
  Nat.decidableBallLT _ _

/-- The clipboard/keystroke actions `ClipboardService.type_text` performs, in
program order. -/
inductive ClipOp
  | readClipboard
  | copy (s : String)
  | pressKey (combo : String)
deriving DecidableEq, Repr

/-- Python `text.startswith(" ")`. -/
def starts_with_space (t : String) : Bool :=
  match t.data with
  | c :: _ => c == ' '
  | [] => false

/-- `ClipboardService.type_text`: no-op on empty text; otherwise save the
clipboard (`original = pyperclip.paste()`, `None` when that raised), copy
`" " + text.strip()` (unless the text already starts with a space), issue one
paste keystroke (terminal-aware combo), and restore the saved clipboard when
one was saved. -/
def type_text (text : String) (original : Option String)
    (terminal_focused : Bool) : List ClipOp :=
  if text = "" then []
  else
    let clean_text := if !starts_with_space text then " " ++ py_strip text else text
    let paste_key := if terminal_focused then "ctrl+shift+v" else "ctrl+v"
    let ops := [ClipOp.readClipboard, ClipOp.copy clean_text, ClipOp.pressKey paste_key]
    match original with
    | some orig => ops ++ [ClipOp.copy orig]
    | none => ops

end LinuxWhisper

namespace LinuxWhisper

theorem string_mk_data (l : List Char) : (String.mk l).data = l := rfl

theorem estimate_tokens_mk (l : List Char) :
    estimate_tokens (String.mk l) = l.length / 4 := rfl

theorem trim_history_tokens_le (l : List Msg) :
    get_history_tokens (trim_history l) ≤ CFG_MAX_TOKENS := by
  induction l with
  | nil => simp [trim_history, get_history_tokens]
  | cons m rest ih =>
    rw [trim_history]
    split
    · exact ih
    · omega

theorem trim_history_suffix (l : List Msg) : trim_history l <:+ l := by
  induction l with
  | nil => simp [trim_history]
  | cons m rest ih =>
    rw [trim_history]
    split
    · exact ih.trans (List.suffix_cons m rest)
    · exact List.suffix_refl _

theorem suffix_append_single {l m : List Msg} (h : l <:+ m) (a : Msg) :
    l ++ [a] <:+ m ++ [a] := by
  obtain ⟨t, rfl⟩ := h
  exact ⟨t, (List.append_assoc t l [a]).symm⟩

theorem run_adds_spec (calls : List (String × String)) :
    get_history_tokens (run_adds calls) ≤ CFG_MAX_TOKENS ∧
      run_adds calls <:+ calls.map (fun c => (⟨c.1, c.2⟩ : Msg)) := by
  induction calls using List.reverseRecOn with
  | nil =>
    constructor
    · simp [run_adds, get_history_tokens]
    · simp [run_adds]
  | append_singleton calls c ih =>
    have hrun : run_adds (calls ++ [c]) = add_message (run_adds calls) c.1 c.2 := by
      simp [run_adds, List.foldl_append]
    constructor
    · rw [hrun]
      exact trim_history_tokens_le _
    · rw [hrun]
      have h1 : run_adds calls ++ [(⟨c.1, c.2⟩ : Msg)] <:+
          calls.map (fun c => (⟨c.1, c.2⟩ : Msg)) ++ [(⟨c.1, c.2⟩ : Msg)] :=
        suffix_append_single ih.2 _
      have h2 : add_message (run_adds calls) c.1 c.2 <:+
          run_adds calls ++ [(⟨c.1, c.2⟩ : Msg)] := trim_history_suffix _
      have h3 := h2.trans h1
      simpa using h3

/-- C3: after every `HistoryManager.add_message` mutation, the summed token
estimate of the remaining conversation history is at most `CFG.MAX_TOKENS`,
and the remaining messages are exactly a most-recently-appended suffix of all
messages appended so far (oldest-first FIFO eviction). -/
theorem history_budget_and_fifo_C3 (calls : List (String × String)) :
    get_history_tokens (run_adds calls) ≤ CFG_MAX_TOKENS ∧
      run_adds calls <:+ calls.map (fun c => (⟨c.1, c.2⟩ : Msg)) :=
  run_adds_spec calls

theorem trim_history_keeps_last {m : Msg} (l : List Msg)
    (h : estimate_tokens m.content ≤ CFG_MAX_TOKENS) :
    m ∈ trim_history (l ++ [m]) := by
  induction l with
  | nil =>
    rw [List.nil_append, trim_history]
    have hle : ¬ get_history_tokens [m] > CFG_MAX_TOKENS := by
      simp [get_history_tokens]
      omega
    simp [hle]
  | cons a rest ih =>
    rw [List.cons_append, trim_history]
    split
    · exact ih
    · exact List.mem_cons_of_mem a (List.mem_append_right rest (List.mem_singleton.mpr rfl))

theorem trim_history_kills_oversized {m : Msg} (l : List Msg)
    (h : estimate_tokens m.content > CFG_MAX_TOKENS) :
    trim_history (l ++ [m]) = [] := by
  induction l with
  | nil =>
    rw [List.nil_append, trim_history]
    have hgt : get_history_tokens [m] > CFG_MAX_TOKENS := by
      simpa [get_history_tokens] using h
    simp [hgt, trim_history]
  | cons a rest ih =>
    rw [List.cons_append, trim_history]
    have hmem : estimate_tokens m.content ∈
        ((a :: (rest ++ [m])).map (fun x => estimate_tokens x.content)) := by
      simp
    have hge : get_history_tokens (a :: (rest ++ [m])) ≥ estimate_tokens m.content :=
      List.single_le_sum (fun x _ => Nat.zero_le x) _ hmem
    have hgt : get_history_tokens (a :: (rest ++ [m])) > CFG_MAX_TOKENS := by omega
    simp [hgt, ih]

/-- C4 (amended): the message being appended by `add_message` is still present
when the call returns precisely when its own token estimate fits the budget;
when the new message alone exceeds `CFG.MAX_TOKENS`, `trim_history` empties
the entire history, evicting the new message as well. -/
theorem add_message_keeps_new_iff_C4 (l : List Msg) (role content : String) :
    ((⟨role, content⟩ : Msg) ∈ add_message l role content ↔
      estimate_tokens content ≤ CFG_MAX_TOKENS) ∧
    (estimate_tokens content > CFG_MAX_TOKENS → add_message l role content = []) := by
  refine ⟨⟨fun hmem => ?_, fun hle => ?_⟩, fun hgt => ?_⟩
  · by_contra hgt
    have : add_message l role content = [] :=
      trim_history_kills_oversized l
        (by show estimate_tokens content > CFG_MAX_TOKENS; omega)
    rw [this] at hmem
    simp at hmem
  · exact trim_history_keeps_last l hle
  · exact trim_history_kills_oversized l hgt

/-- C4 witness: a small message is retained. -/
theorem add_message_keeps_new_iff_C4_witness :
    (⟨"user", "hello"⟩ : Msg) ∈ add_message [] "user" "hello" :=
  (add_message_keeps_new_iff_C4 [] "user" "hello").1.mpr (by decide)

/-- C4 counterexample: the claim says the message being appended is always
still present when `add_message` returns, even when its estimated cost alone
exceeds the budget; but appending a message of estimate 32001 to the empty
history leaves the history empty — the new message itself is evicted. -/
theorem add_message_evicts_new_C4_counterexample :
    (⟨"user", oversized_content⟩ : Msg) ∉ add_message [] "user" oversized_content := by
  have hgt : estimate_tokens oversized_content > CFG_MAX_TOKENS := by
    have h0 : estimate_tokens oversized_content =
        (List.replicate 128004 (Char.ofNat 97)).length / 4 := estimate_tokens_mk _
    rw [List.length_replicate] at h0
    rw [h0]
    decide
  have hnil : add_message [] "user" oversized_content = [] :=
    trim_history_kills_oversized [] hgt
  intro hmem
  rw [hnil] at hmem
  exact (List.not_mem_nil _) hmem

/-- C1 (amended): every decision the routing prefix of `route_and_process`
actually produces has an action in {DICTATION, AGENT, VISION}; any
exception/timeout/parse failure inside `smart_route` yields exactly the fixed
fallback `RouterDecision(AGENT, original_transcript)`; a successfully parsed
object whose action is a string outside the set degrades to AGENT with the
reply's own `text` field (the original transcript is used only when that
field is absent); and a parsed non-object reply, or an object whose action
value is not a string, raises `AttributeError` at `route.get(...).upper()`,
which `@safe_execute("Aria Router")` catches, so the caller receives `None` —
no decision and no fallback — rather than a propagated exception. -/
theorem router_decision_C1 :
    (∀ ut reply d, classify ut reply = some d →
      d.action ∈ (["DICTATION", "AGENT", "VISION"] : List String)) ∧
    (∀ ut, classify ut RouterReply.failure = some ⟨"AGENT", Json.str ut⟩) ∧
    (∀ ut a fields,
      json_dict_get fields "action" (Json.str "AGENT") = Json.str a →
      py_upper a ≠ "DICTATION" → py_upper a ≠ "VISION" →
      classify ut (RouterReply.parsed (Json.obj fields)) =
        some ⟨"AGENT", json_dict_get fields "text" (Json.str ut)⟩) ∧
    (∀ ut v, (∀ fields, v ≠ Json.obj fields) →
      classify ut (RouterReply.parsed v) = none) ∧
    (∀ ut fields,
      (∀ s, json_dict_get fields "action" (Json.str "AGENT") ≠ Json.str s) →
      classify ut (RouterReply.parsed (Json.obj fields)) = none) := by
  refine ⟨fun ut reply d h => ?_, fun ut => rfl,
    fun ut a fields hget h1 h2 => ?_, fun ut v hv => ?_, fun ut fields h => ?_⟩
  · unfold classify at h
    split at h
    · split at h
      · dsimp only at h
        split_ifs at h <;> (injection h with h'; rw [← h']; simp)
      all_goals exact absurd h (by simp)
    all_goals exact absurd h (by simp)
  · simp only [classify, smart_route, hget]
    rw [if_neg h1, if_neg h2]
  · cases v with
    | obj fields => exact absurd rfl (hv fields)
    | str s => rfl
    | num n => rfl
    | bool b => rfl
    | null => rfl
    | arr l => rfl
  · simp only [classify, smart_route]

/-- C1 witness: the out-of-set string action "banana" degrades to AGENT
carrying the reply's text field; a parsed non-object reply, and an object
whose action value is the number 5, each yield no decision at all. -/
theorem router_decision_C1_witness :
    classify "hello" (RouterReply.parsed (Json.obj
      [("action", Json.str "banana"), ("text", Json.str "zzz")])) =
      some ⟨"AGENT", Json.str "zzz"⟩ ∧
    classify "hello" (RouterReply.parsed (Json.arr [])) = none ∧
    classify "hello" (RouterReply.parsed (Json.obj [("action", Json.num 5)])) = none :=
  ⟨router_decision_C1.2.2.1 "hello" "banana"
      [("action", Json.str "banana"), ("text", Json.str "zzz")]
      rfl (by decide) (by decide),
   router_decision_C1.2.2.2.1 "hello" (Json.arr [])
      (fun fields hobj => Json.noConfusion hobj),
   router_decision_C1.2.2.2.2 "hello" [("action", Json.num 5)]
      (fun s hs => by simp [json_dict_get] at hs)⟩

/-- C1 counterexample: for transcript "hello", the reply object
`{"action": "BANANA", "text": "zzz"}` — an action outside
{DICTATION, AGENT, VISION} — produces the decision `(AGENT, "zzz")`, not the
fixed fallback `(AGENT, "hello")` the claim requires; and the reply object
`{"action": 5, "text": "x"}` — also an action value outside the set — makes
`route_and_process` return `None` (its `AttributeError` is swallowed by
`safe_execute`), so no decision with an action in the set is produced and the
fixed fallback is not produced either. -/
theorem router_decision_C1_counterexample :
    classify "hello" (RouterReply.parsed (Json.obj
      [("action", Json.str "BANANA"), ("text", Json.str "zzz")])) =
      some ⟨"AGENT", Json.str "zzz"⟩ ∧
    (Json.str "zzz" : Json) ≠ Json.str "hello" ∧
    classify "hello" (RouterReply.parsed (Json.obj
      [("action", Json.num 5), ("text", Json.str "x")])) = none ∧
    "BANANA" ∉ (["DICTATION", "AGENT", "VISION"] : List String) := by
  refine ⟨rfl, ?_, rfl, by decide⟩
  intro h
  injection h with h'
  exact absurd h' (by decide)

/-- C2 (amended): a transcript the guard rejects invokes no mode handler and
mutates no state; the guard rejects exactly when the normalization —
surrounding whitespace stripped, lowercased, with every '.' and '!' occurrence
removed (not only trailing ones) — is one of the fixed silence-artifact
phrases or is shorter than 2 characters; "Thank you." is rejected, "hi" is
accepted, "h" is rejected. -/
theorem hallucination_guard_C2 :
    (∀ mode t o st, guard_rejects t = true → process mode t o st = (st, [])) ∧
    (∀ t, guard_rejects t = true ↔
      clean_transcript t ∈ hallucinations ∨ (clean_transcript t).data.length < 2) ∧
    guard_rejects "Thank you." = true ∧
    guard_rejects "hi" = false ∧
    guard_rejects "h" = true := by
  refine ⟨fun mode t o st h => ?_, fun t => ?_, by decide, by decide, by decide⟩
  · simp [process, h]
  · simp [guard_rejects, List.contains, List.elem_iff]

/-- C2 witness: "Thank you." is rejected before any dispatch: the state is
untouched and no external call happens. -/
theorem hallucination_guard_C2_witness :
    process "ai" "Thank you." {} {} = (({} : AppSt), []) :=
  hallucination_guard_C2.1 "ai" "Thank you." {} {} (by decide)

/-- C2 counterexample: the code rejects "Thank. You" (its normalization
removes the interior '.' giving "thank you", a silence-artifact phrase), but
the claim's normalization — lowercase with only trailing '.'/'!' stripped —
gives "thank. you", which is not in the fixed set and is not shorter than 2
characters, so the claim says it must be accepted. -/
theorem hallucination_guard_C2_counterexample :
    guard_rejects "Thank. You" = true ∧
    spec_normalize "Thank. You" ∉ hallucinations ∧
    ¬ ((spec_normalize "Thank. You").data.length < 2) := by decide

theorem add_answer_eq_take (l : List AnswerEntry) (t stamp : String) :
    add_answer l t stamp = ((⟨t, stamp⟩ : AnswerEntry) :: l).take CFG_ANSWER_HISTORY_LIMIT := by
  unfold add_answer
  dsimp only
  split
  · rfl
  · next h => exact (List.take_of_length_le (by omega)).symm

theorem take_limit_cons_take (x : AnswerEntry) (l : List AnswerEntry) :
    (x :: l.take CFG_ANSWER_HISTORY_LIMIT).take CFG_ANSWER_HISTORY_LIMIT =
      (x :: l).take CFG_ANSWER_HISTORY_LIMIT := by
  show (x :: l.take 15).take (14 + 1) = (x :: l).take (14 + 1)
  rw [List.take_succ_cons, List.take_succ_cons, List.take_take]
  norm_num

theorem run_answers_eq (stamp : String) (ts : List String) :
    run_answers stamp ts =
      (ts.reverse.map (fun t => (⟨t, stamp⟩ : AnswerEntry))).take CFG_ANSWER_HISTORY_LIMIT := by
  induction ts using List.reverseRecOn with
  | nil => simp [run_answers]
  | append_singleton ts t ih =>
    have hrun : run_answers stamp (ts ++ [t]) = add_answer (run_answers stamp ts) t stamp := by
      simp [run_answers, List.foldl_append]
    rw [hrun, ih, add_answer_eq_take, take_limit_cons_take]
    simp [List.reverse_append]

/-- C8: the answer log never exceeds `CFG.ANSWER_HISTORY_LIMIT` entries after
any `add_answer`; the newest entry is always inserted at index 0; the log
after any insertion sequence holds the most recent `ANSWER_HISTORY_LIMIT`
entries newest-first; and after inserting `ANSWER_HISTORY_LIMIT + 1` entries
the oldest one is absent. -/
theorem answer_log_C8 :
    (∀ (l : List AnswerEntry) (t stamp : String),
      (add_answer l t stamp).length ≤ CFG_ANSWER_HISTORY_LIMIT ∧
      (add_answer l t stamp).head? = some ⟨t, stamp⟩) ∧
    (∀ stamp ts, run_answers stamp ts =
      (ts.reverse.map (fun t => (⟨t, stamp⟩ : AnswerEntry))).take CFG_ANSWER_HISTORY_LIMIT) ∧
    (∀ stamp t0 rest, rest.length = CFG_ANSWER_HISTORY_LIMIT → t0 ∉ rest →
      (⟨t0, stamp⟩ : AnswerEntry) ∉ run_answers stamp (t0 :: rest)) := by
  refine ⟨fun l t stamp => ⟨?_, ?_⟩, run_answers_eq, fun stamp t0 rest hlen hnot => ?_⟩
  · rw [add_answer_eq_take]
    show (((⟨t, stamp⟩ : AnswerEntry) :: l).take 15).length ≤ 15
    simp [List.length_take]
  · rw [add_answer_eq_take]
    show (((⟨t, stamp⟩ : AnswerEntry) :: l).take (14 + 1)).head? = _
    rw [List.take_succ_cons]
    rfl
  · rw [run_answers_eq, List.reverse_cons, List.map_append]
    have hl : (rest.reverse.map (fun t => (⟨t, stamp⟩ : AnswerEntry))).length =
        CFG_ANSWER_HISTORY_LIMIT := by simp [hlen]
    rw [← hl, List.take_left]
    intro hmem
    rw [List.mem_map] at hmem
    obtain ⟨x, hx, hmk⟩ := hmem
    rw [AnswerEntry.mk.injEq] at hmk
    exact hnot (hmk.1 ▸ (List.mem_reverse.mp hx))

theorem add_answer_head (l : List AnswerEntry) (t stamp : String) :
    (add_answer l t stamp).head? = some ⟨t, stamp⟩ := by
  rw [add_answer_eq_take]
  show (((⟨t, stamp⟩ : AnswerEntry) :: l).take (14 + 1)).head? = _
  rw [List.take_succ_cons]
  rfl

theorem add_answer_length_of_lt (l : List AnswerEntry) (t stamp : String)
    (h : l.length < CFG_ANSWER_HISTORY_LIMIT) :
    (add_answer l t stamp).length = l.length + 1 := by
  rw [add_answer_eq_take, List.take_of_length_le (by simp; omega)]
  rfl

/-- C8 witness: after inserting 16 distinct entries into the empty log, the
first-inserted entry is gone. -/
theorem answer_log_C8_witness :
    (⟨"q0", "00:00"⟩ : AnswerEntry) ∉ run_answers "00:00"
      ("q0" :: ["q1", "q2", "q3", "q4", "q5", "q6", "q7", "q8", "q9", "q10",
        "q11", "q12", "q13", "q14", "q15"]) :=
  answer_log_C8.2.2 "00:00" "q0" _ (by decide) (by decide)

/-- C6: when the conversational completion fails (an exception, which
`safe_execute` turns into `None`) or returns an empty result, `_handle_ai`
leaves conversation history, answer log and chat messages unchanged and makes
no typed-output or speech-output call; and `safe_execute` maps every raised
exception to `None` instead of propagating. -/
theorem agent_failure_no_mutation_C6 :
    (∀ (st : AppSt) (text : String) (o : Oracles),
      safe_execute o.chat = none ∨ safe_execute o.chat = some "" →
      handle_ai text o st = (st, [ExtCall.completeChat text])) ∧
    (∀ e : String, safe_execute (Except.error e) = (none : Option String)) := by
  refine ⟨fun st text o h => ?_, fun e => rfl⟩
  rcases h with h | h <;> simp [handle_ai, h]

/-- C6 witness: a raised exception in the chat call leaves the default state
untouched, with only the completion attempt in the trace. -/
theorem agent_failure_no_mutation_C6_witness :
    handle_ai "hi" { chat := Except.error "boom" } {} =
      (({} : AppSt), [ExtCall.completeChat "hi"]) :=
  agent_failure_no_mutation_C6.1 {} "hi" { chat := Except.error "boom" } (Or.inl rfl)

/-- C7: `_handle_vision` always invokes the screenshot capture first (it is
the head of the trace, before any `completeVision` call); a failed capture
aborts with no state mutation and no completion call; a successful capture
followed by a successful non-empty completion appends the
screen-context-tagged user turn ("[Screenshot] ..." in history, "📸 ..." in
the chat log) followed by the assistant turn, logs the answer, and performs
the same typed-output and speech-output steps as AGENT. -/
theorem vision_dispatch_C7 :
    ∀ (st : AppSt) (text : String) (o : Oracles),
      ((handle_vision text o st).2.head? = some ExtCall.captureScreenshot) ∧
      (o.shot = none → handle_vision text o st = (st, [ExtCall.captureScreenshot])) ∧
      (∀ img r, o.shot = some img → img ≠ "" → safe_execute o.vision = some r → r ≠ "" →
        handle_vision text o st =
          ({ conversation_history :=
               add_message
                 (add_message st.conversation_history "user" ("[Screenshot] " ++ text))
                 "assistant" r,
             answer_history := add_answer st.answer_history r o.stamp,
             chat_messages :=
               chat_add_message
                 (chat_add_message st.chat_messages "user" ("📸 " ++ text))
                 "assistant" r },
           [ExtCall.captureScreenshot, ExtCall.completeVision text,
            ExtCall.typeText r, ExtCall.speak r])) := by
  intro st text o
  refine ⟨?_, fun h => by simp [handle_vision, h],
    fun img r hshot himg hvis hr => by simp [handle_vision, hshot, himg, hvis, hr]⟩
  rcases hs : o.shot with _ | img
  · simp [handle_vision, hs]
  · rcases hv : safe_execute o.vision with _ | r <;>
      simp [handle_vision, hs, hv] <;> split_ifs <;> simp

/-- C7 witness: a concrete successful vision round trip. -/
theorem vision_dispatch_C7_witness :
    handle_vision "what is this" { shot := some "IMG", vision := Except.ok "seen" } {} =
      ({ conversation_history :=
           add_message (add_message [] "user" ("[Screenshot] " ++ "what is this"))
             "assistant" "seen",
         answer_history := add_answer [] "seen" "00:00",
         chat_messages :=
           chat_add_message (chat_add_message [] "user" ("📸 " ++ "what is this"))
             "assistant" "seen" },
       [ExtCall.captureScreenshot, ExtCall.completeVision "what is this",
        ExtCall.typeText "seen", ExtCall.speak "seen"]) :=
  (vision_dispatch_C7 {} "what is this"
    { shot := some "IMG", vision := Except.ok "seen" }).2.2
    "IMG" "seen" rfl (by decide) rfl (by decide)

/-- C9: `_handle_dictation` makes exactly one typed-output call, with the
transcript unmodified as its argument; it leaves the conversation history
unchanged (dictation never appends to it); and the answer log gains exactly
one entry — the "[Dictation] ..." entry at index 0, with the length growing
by one whenever the log was below capacity. -/
theorem dictation_dispatch_C9 :
    ∀ (st : AppSt) (text : String) (o : Oracles),
      (handle_dictation text o st).2 = [ExtCall.typeText text] ∧
      (handle_dictation text o st).1.conversation_history = st.conversation_history ∧
      (handle_dictation text o st).1.answer_history =
        add_answer st.answer_history ("[Dictation] " ++ text) o.stamp ∧
      ((handle_dictation text o st).1.answer_history).head? =
        some ⟨"[Dictation] " ++ text, o.stamp⟩ ∧
      (st.answer_history.length < CFG_ANSWER_HISTORY_LIMIT →
        (handle_dictation text o st).1.answer_history.length =
          st.answer_history.length + 1) := by
  intro st text o
  refine ⟨rfl, rfl, rfl, add_answer_head _ _ _, fun h => add_answer_length_of_lt _ _ _ h⟩

/-- C9 witness: dictating "hello world" into the empty state. -/
theorem dictation_dispatch_C9_witness :
    (handle_dictation "hello world" {} {}).2 = [ExtCall.typeText "hello world"] ∧
    (handle_dictation "hello world" {} {}).1.answer_history.length = 0 + 1 :=
  ⟨(dictation_dispatch_C9 {} "hello world" {}).1,
   (dictation_dispatch_C9 {} "hello world" {}).2.2.2.2 (by decide)⟩

theorem string_append_data (a b : String) : (a ++ b).data = a.data ++ b.data := rfl

theorem string_data_inj {s t : String} (h : s.data = t.data) : s = t :=
  congrArg String.mk h

/-- C10: `ClipboardService.type_text` on empty text performs no clipboard or
keystroke action at all; on non-empty text not starting with a space it
copies `" " + text.strip()` — never the byte-identical input — issues exactly
one paste keystroke, and afterwards restores the clipboard content saved
before the call (when that save succeeded). -/
theorem type_text_C10 :
    ∀ (text : String) (original : Option String) (term : Bool),
      (text = "" → type_text text original term = []) ∧
      (∀ orig, text ≠ "" → starts_with_space text = false → original = some orig →
        type_text text original term =
          [ClipOp.readClipboard, ClipOp.copy (" " ++ py_strip text),
           ClipOp.pressKey (if term then "ctrl+shift+v" else "ctrl+v"),
           ClipOp.copy orig] ∧
        " " ++ py_strip text ≠ text) := by
  intro text original term
  refine ⟨fun h => by simp [type_text, h], fun orig htext hsp horig => ⟨?_, ?_⟩⟩
  · simp [type_text, htext, hsp, horig]
  · intro heq
    have hdata := congrArg String.data heq
    rw [string_append_data] at hdata
    have hsp' := hsp
    unfold starts_with_space at hsp'
    rcases hd : text.data with _ | ⟨c, cs⟩
    · exact htext (string_data_inj (by rw [hd]))
    · rw [hd] at hsp' hdata
      simp at hsp'
      have : ' ' = c := by
        have := congrArg List.head? hdata
        simpa using this
      exact hsp' this.symm

theorem on_press_currentKeys (k : RawKey) (s : KB) :
    (on_press k s).currentKeys = s.currentKeys.insert k := by
  unfold on_press
  dsimp only
  split_ifs <;> first | rfl | (split <;> rfl)

theorem on_release_currentKeys (k : RawKey) (s : KB) :
    (on_release k s).currentKeys = s.currentKeys.erase k := by
  unfold on_release
  dsimp only
  split_ifs <;> rfl

theorem run_events_append (evs : List KEvent) (e : KEvent) :
    run_events (evs ++ [e]) = kb_step (run_events evs) e := by
  simp [run_events, List.foldl_append]

theorem check_key_key_match {ck : List RawKey} {k : RawKey} {m : String}
    (h : check_key ck k m = true) : key_match k (key_mappings_of m) = true := by
  unfold check_key at h
  by_cases hk : key_match k (key_mappings_of m) = true
  · exact hk
  · rw [if_neg hk] at h
    exact absurd h (by simp)

theorem starts_inv_step (e : KEvent) (s : KB) (h : starts_inv s) :
    starts_inv (kb_step s e) := by
  cases e with
  | down k =>
    show starts_inv (on_press k s)
    unfold starts_inv at h ⊢
    unfold on_press
    dsimp only
    split_ifs with h1 h2 h3
    · exact h
    · exact h
    · exact h
    · have h1' : s.recording = false := by
        cases hb : s.recording with
        | false => rfl
        | true => exact absurd hb h1
      split
      · simp [h1'] at h ⊢
        omega
      · exact h
  | up k =>
    show starts_inv (on_release k s)
    unfold starts_inv at h ⊢
    unfold on_release
    dsimp only
    split_ifs with h1 h2
    · exact h
    · have h1' : s.recording = true := by
        cases hb : s.recording with
        | true => rfl
        | false => rw [hb] at h1; simp at h1
      simp [h1'] at h ⊢
      omega
    · exact h

theorem rec_inv_step (e : KEvent) (s : KB) (h : rec_inv s) :
    rec_inv (kb_step s e) := by
  cases e with
  | down k =>
    show rec_inv (on_press k s)
    unfold rec_inv on_press
    dsimp only
    split_ifs with h1 h2 h3
    · intro hrec
      obtain ⟨w, hw, hwm⟩ := h hrec
      exact ⟨w, List.mem_insert_iff.mpr (Or.inr hw), hwm⟩
    · intro hrec
      exact absurd hrec h1
    · intro hrec
      exact absurd hrec h1
    · split
      · next m hm =>
        intro _
        refine ⟨k, List.mem_insert_self k s.currentKeys, ?_⟩
        have hck : check_key (s.currentKeys.insert k) k m = true := List.find?_some hm
        exact check_key_key_match hck
      · intro hrec
        exact absurd hrec h1
  | up k =>
    show rec_inv (on_release k s)
    unfold rec_inv on_release
    dsimp only
    split_ifs with h1 h2
    · intro hrec
      rw [hrec] at h1
      exact absurd h1 (by simp)
    · intro hrec
      simp at hrec
    · intro hrec
      obtain ⟨w, hw, hwm⟩ := h hrec
      have hne : w ≠ k := by
        intro he
        rw [he] at hwm
        exact h2 hwm
      exact ⟨w, (List.mem_erase_of_ne hne).mpr hw, hwm⟩

theorem nodup_step (e : KEvent) (s : KB) (h : s.currentKeys.Nodup) :
    (kb_step s e).currentKeys.Nodup := by
  cases e with
  | down k =>
    rw [show (kb_step s (KEvent.down k)).currentKeys = s.currentKeys.insert k from
      on_press_currentKeys k s]
    exact h.insert
  | up k =>
    rw [show (kb_step s (KEvent.up k)).currentKeys = s.currentKeys.erase k from
      on_release_currentKeys k s]
    exact h.erase k

theorem starts_inv_run (evs : List KEvent) : starts_inv (run_events evs) := by
  induction evs using List.reverseRecOn with
  | nil => exact rfl
  | append_singleton evs e ih =>
    rw [run_events_append]
    exact starts_inv_step e _ ih

theorem rec_inv_run (evs : List KEvent) : rec_inv (run_events evs) := by
  induction evs using List.reverseRecOn with
  | nil => intro hrec; simp [run_events] at hrec
  | append_singleton evs e ih =>
    rw [run_events_append]
    exact rec_inv_step e _ ih

theorem nodup_run (evs : List KEvent) : (run_events evs).currentKeys.Nodup := by
  induction evs using List.reverseRecOn with
  | nil => exact List.nodup_nil
  | append_singleton evs e ih =>
    rw [run_events_append]
    exact nodup_step e _ ih

theorem mem_currentKeys_run (evs : List KEvent) (k : RawKey)
    (hk : k ∈ (run_events evs).currentKeys) :
    ∃ i, i < evs.length ∧ evs[i]? = some (KEvent.down k) ∧
      ∀ j, i < j → evs[j]? ≠ some (KEvent.up k) := by
  induction evs using List.reverseRecOn with
  | nil => simp [run_events] at hk
  | append_singleton evs e ih =>
    rw [run_events_append] at hk
    cases e with
    | down k' =>
      rw [show (kb_step (run_events evs) (KEvent.down k')).currentKeys =
          (run_events evs).currentKeys.insert k' from on_press_currentKeys _ _] at hk
      rcases List.mem_insert_iff.mp hk with hkk | hkold
      · subst hkk
        refine ⟨evs.length, by simp, ?_, ?_⟩
        · rw [List.getElem?_concat_length]
        · intro j hij
          rw [List.getElem?_eq_none (by simp; omega)]
          simp
      · obtain ⟨i, hilen, hdown, hnoup⟩ := ih hkold
        refine ⟨i, by simp; omega, ?_, ?_⟩
        · rw [List.getElem?_append_left hilen]
          exact hdown
        · intro j hij
          rcases lt_trichotomy j evs.length with hj | hj | hj
          · rw [List.getElem?_append_left hj]
            exact hnoup j hij
          · subst hj
            rw [List.getElem?_concat_length]
            simp
          · rw [List.getElem?_eq_none (by simp; omega)]
            simp
    | up k' =>
      rw [show (kb_step (run_events evs) (KEvent.up k')).currentKeys =
          (run_events evs).currentKeys.erase k' from on_release_currentKeys _ _] at hk
      have hnd : (run_events evs).currentKeys.Nodup := nodup_run evs
      obtain ⟨hne, hkold⟩ := (List.Nodup.mem_erase_iff hnd).mp hk
      obtain ⟨i, hilen, hdown, hnoup⟩ := ih hkold
      refine ⟨i, by simp; omega, ?_, ?_⟩
      · rw [List.getElem?_append_left hilen]
        exact hdown
      · intro j hij
        rcases lt_trichotomy j evs.length with hj | hj | hj
        · rw [List.getElem?_append_left hj]
          exact hnoup j hij
        · subst hj
          rw [List.getElem?_concat_length]
          simp
          intro he
          exact hne he.symm
        · rw [List.getElem?_eq_none (by simp; omega)]
          simp

theorem well_formed_up {evs : List KEvent} (h : well_formed evs) {i : Nat}
    {k : RawKey} (hi : evs[i]? = some (KEvent.down k)) :
    ∃ j, i < j ∧ evs[j]? = some (KEvent.up k) := by
  have hlen : i < evs.length := by
    rcases List.getElem?_eq_some.mp hi with ⟨hl, _⟩
    exact hl
  have hm := h i hlen
  unfold down_matched at hm
  rw [hi] at hm
  rw [List.any_eq_true] at hm
  obtain ⟨j, _, hj⟩ := hm
  rw [Bool.and_eq_true, decide_eq_true_eq, decide_eq_true_eq] at hj
  exact ⟨j, hj.1, hj.2⟩

theorem run_currentKeys_nil (evs : List KEvent) (h : well_formed evs) :
    (run_events evs).currentKeys = [] := by
  rw [List.eq_nil_iff_forall_not_mem]
  intro k hk
  obtain ⟨i, _, hdown, hnoup⟩ := mem_currentKeys_run evs k hk
  obtain ⟨j, hij, hup⟩ := well_formed_up h hdown
  exact hnoup j hij hup

/-- C5: `on_press` never starts a capture session while one is active — while
the recording flag is set it leaves the start counter, the pin-toggle counter
and the TTS-toggle counter untouched and the recording flag set; and along
any well-formed key event sequence (every key-down matched by a later
key-up), the number of capture starts equals the number of finalizations. -/
theorem keyboard_sessions_C5 :
    (∀ (s : KB) (k : RawKey), s.recording = true →
      (on_press k s).starts = s.starts ∧
      (on_press k s).pinToggles = s.pinToggles ∧
      (on_press k s).ttsToggles = s.ttsToggles ∧
      (on_press k s).recording = true) ∧
    (∀ evs : List KEvent, well_formed evs →
      (run_events evs).starts = (run_events evs).fins) := by
  constructor
  · intro s k h
    unfold on_press
    dsimp only
    rw [if_pos (show ({ s with currentKeys := s.currentKeys.insert k } : KB).recording =
      true from h)]
    exact ⟨rfl, rfl, rfl, h⟩
  · intro evs hwf
    have h1 := starts_inv_run evs
    have h3 := run_currentKeys_nil evs hwf
    have hrec : (run_events evs).recording = false := by
      cases hb : (run_events evs).recording with
      | false => rfl
      | true =>
        obtain ⟨k, hk, _⟩ := rec_inv_run evs hb
        rw [h3] at hk
        exact absurd hk (List.not_mem_nil k)
    unfold starts_inv at h1
    rw [hrec] at h1
    simpa using h1

/-- C5 witness: pressing and releasing F3 — a well-formed sequence — yields
one start and one finalization; a press while recording changes no counter. -/
theorem keyboard_sessions_C5_witness :
    (run_events [KEvent.down (RawKey.named "f3"), KEvent.up (RawKey.named "f3")]).starts =
      (run_events [KEvent.down (RawKey.named "f3"), KEvent.up (RawKey.named "f3")]).fins ∧
    (on_press (RawKey.named "f9") ({ recording := true } : KB)).starts =
      ({ recording := true } : KB).starts ∧
    (on_press (RawKey.named "f9") ({ recording := true } : KB)).pinToggles =
      ({ recording := true } : KB).pinToggles :=
  ⟨keyboard_sessions_C5.2 _ (by decide),
   (keyboard_sessions_C5.1 { recording := true } (RawKey.named "f9") rfl).1,
   (keyboard_sessions_C5.1 { recording := true } (RawKey.named "f9") rfl).2.1⟩

/-- C10 witness: typing "hi" with saved clipboard "old" outside a terminal. -/
theorem type_text_C10_witness :
    type_text "hi" (some "old") false =
      [ClipOp.readClipboard, ClipOp.copy (" " ++ py_strip "hi"),
       ClipOp.pressKey (if false then "ctrl+shift+v" else "ctrl+v"),
       ClipOp.copy "old"] ∧
    " " ++ py_strip "hi" ≠ "hi" :=
  (type_text_C10 "hi" (some "old") false).2 "old" (by decide) (by decide) rfl

end LinuxWhisper
